import Mathlib

/-!
# Verification of `src/git_issues.py` (umbra-cloud-profile-service)

Shallow embedding of the issue-management helper module.  JSON values are
modelled by the inductive `JValue` (numbers as integers, which covers the
integral ids the data uses); a Python `dict` parsed from a JSON object is
modelled as an association list `Issue := List (String × JValue)` in
insertion order, with the no-duplicate-keys invariant stated as a hypothesis
where a theorem needs it.  The nondeterministic `_timestamp()` is passed in
as an explicit `ts : String` argument.  File-system effects are modelled by
explicit state passing (`close_implemented_issues_io` and friends).

One caveat, recorded once here: in the Python source,
`issue.get("status")` may return a non-string, non-`None` value (a number,
a list, ...), in which case `_normalise_status` raises `AttributeError`.
The embedding's `getStr?` maps such values to `none` (exactly like an
absent key or a JSON `null`, which Python's `json` module loads as `None`);
theorems about the status-matching functions therefore carry a `StatusWF`
hypothesis restricting `status`/`state` values to strings or `null`, the
inputs on which the Python code runs without raising.
-/

namespace GitIssues

/-- JSON values, as produced by `json.load`.  Numbers are modelled as
integers. -/
inductive JValue where
  | null : JValue
  | bool : Bool → JValue
  | num : Int → JValue
  | str : String → JValue
  | arr : List JValue → JValue
  | obj : List (String × JValue) → JValue
  deriving Repr

/-- An issue record: a Python dict in insertion order. -/
abbrev Issue := List (String × JValue)

mutual

def JValue.beq : JValue → JValue → Bool
  | .null, .null => true
  | .bool a, .bool b => a == b
  | .num a, .num b => a == b
  | .str a, .str b => a == b
  | .arr a, .arr b => JValue.beqList a b
  | .obj a, .obj b => JValue.beqFields a b
  | _, _ => false

def JValue.beqList : List JValue → List JValue → Bool
  | [], [] => true
  | x :: xs, y :: ys => JValue.beq x y && JValue.beqList xs ys
  | _, _ => false

def JValue.beqFields : List (String × JValue) → List (String × JValue) → Bool
  | [], [] => true
  | p :: ps, q :: qs => p.1 == q.1 && JValue.beq p.2 q.2 && JValue.beqFields ps qs
  | _, _ => false

end

mutual

theorem JValue.beq_iff : ∀ a b : JValue, JValue.beq a b = true ↔ a = b
  | .null, .null => by simp [JValue.beq]
  | .null, .bool _ | .null, .num _ | .null, .str _ | .null, .arr _ | .null, .obj _ => by
      simp [JValue.beq]
  | .bool _, .null | .bool _, .num _ | .bool _, .str _ | .bool _, .arr _ | .bool _, .obj _ => by
      simp [JValue.beq]
  | .bool a, .bool b => by simp [JValue.beq]
  | .num _, .null | .num _, .bool _ | .num _, .str _ | .num _, .arr _ | .num _, .obj _ => by
      simp [JValue.beq]
  | .num a, .num b => by simp [JValue.beq]
  | .str _, .null | .str _, .bool _ | .str _, .num _ | .str _, .arr _ | .str _, .obj _ => by
      simp [JValue.beq]
  | .str a, .str b => by simp [JValue.beq]
  | .arr _, .null | .arr _, .bool _ | .arr _, .num _ | .arr _, .str _ | .arr _, .obj _ => by
      simp [JValue.beq]
  | .arr a, .arr b => by
      simp only [JValue.beq, JValue.arr.injEq]
      exact JValue.beqList_iff a b
  | .obj _, .null | .obj _, .bool _ | .obj _, .num _ | .obj _, .str _ | .obj _, .arr _ => by
      simp [JValue.beq]
  | .obj a, .obj b => by
      simp only [JValue.beq, JValue.obj.injEq]
      exact JValue.beqFields_iff a b

theorem JValue.beqList_iff : ∀ a b : List JValue, JValue.beqList a b = true ↔ a = b
  | [], [] => by simp [JValue.beqList]
  | [], _ :: _ => by simp [JValue.beqList]
  | _ :: _, [] => by simp [JValue.beqList]
  | x :: xs, y :: ys => by
      simp only [JValue.beqList, Bool.and_eq_true, List.cons.injEq]
      exact and_congr (JValue.beq_iff x y) (JValue.beqList_iff xs ys)

theorem JValue.beqFields_iff :
    ∀ a b : List (String × JValue), JValue.beqFields a b = true ↔ a = b
  | [], [] => by simp [JValue.beqFields]
  | [], _ :: _ => by simp [JValue.beqFields]
  | _ :: _, [] => by simp [JValue.beqFields]
  | p :: ps, q :: qs => by
      simp only [JValue.beqFields, Bool.and_eq_true, List.cons.injEq, beq_iff_eq,
        JValue.beq_iff p.2 q.2, JValue.beqFields_iff ps qs, Prod.ext_iff, and_assoc]

end

instance : DecidableEq JValue := fun a b =>
  decidable_of_iff (JValue.beq a b = true) (JValue.beq_iff a b)

/-! ## String primitives

Python's `str.strip` and `str.lower`, spelled out over character lists so
that they are kernel-computable.  The status names the module compares
(`open`, `implemented`, ...) are ASCII, where these agree with Python. -/

/-- The whitespace characters `str.strip` removes. -/
def isSpaceChar (c : Char) : Bool :=
  c == ' ' || c == '\t' || c == '\n' || c == '\r' || c == '\x0b' || c == '\x0c'

/-- `s.strip()`: drop leading and trailing whitespace. -/
def pyStrip (s : String) : String :=
  String.mk (((s.data.dropWhile isSpaceChar).reverse.dropWhile isSpaceChar).reverse)

/-- `str.lower` on one character (ASCII range). -/
def asciiLowerChar (c : Char) : Char :=
  if 'A' ≤ c ∧ c ≤ 'Z' then Char.ofNat (c.toNat + 32) else c

/-- `s.lower()`. -/
def pyLower (s : String) : String := String.mk (s.data.map asciiLowerChar)

/-- Lexicographic comparison of character lists (the order `sorted` and
`sort_keys=True` use on the ASCII key names at hand). -/
def charListLe : List Char → List Char → Bool
  | [], _ => true
  | _ :: _, [] => false
  | a :: as, b :: bs => if a < b then true else if b < a then false else charListLe as bs

/-- `a <= b` on strings. -/
def strLe (a b : String) : Bool := charListLe a.data b.data

/-! ## Python dict primitives on association lists -/

/-- `issue.get(k)` on a Python dict: the value stored under `k`, or `none`. -/
def dictGet : Issue → String → Option JValue
  | [], _ => none
  | p :: rest, k => if p.1 = k then some p.2 else dictGet rest k

/-- `issue[k] = v` on a Python dict: replace the value in place when the key
is present (keeping its position), otherwise append the new pair at the end
(Python dicts keep insertion order). -/
def dictSet (issue : Issue) (k : String) (v : JValue) : Issue :=
  match issue with
  | [] => [(k, v)]
  | p :: rest => if p.1 = k then (k, v) :: rest else p :: dictSet rest k v

/-- `issue.setdefault(k, v)`: insert `(k, v)` at the end only when the key is
absent; a present key (whatever its value, `null` included) is untouched. -/
def setdefault (issue : Issue) (k : String) (v : JValue) : Issue :=
  if (dictGet issue k).isSome then issue else issue ++ [(k, v)]

/-! ## Status helpers (`_normalise_status`, `_ensure_status_key`) -/

/-- The value under `k` viewed the way `issue.get(k)` hands it to
`_normalise_status`: a JSON string yields that string, an absent key or a
JSON `null` (loaded as Python `None`) yields `none`.  See the module
comment for non-string, non-null values. -/
def getStr? (issue : Issue) (k : String) : Option String :=
  match dictGet issue k with
  | some (JValue.str s) => some s
  | _ => none

/-- `status`/`state` values, when present, are strings or `null`: exactly
the inputs on which the Python status helpers run without raising. -/
def StatusWF (issue : Issue) : Bool :=
  (match dictGet issue "status" with
   | none | some JValue.null | some (JValue.str _) => true
   | some _ => false) &&
  (match dictGet issue "state" with
   | none | some JValue.null | some (JValue.str _) => true
   | some _ => false)

/-- `_normalise_status`: lower-cased, whitespace-trimmed status name;
`None` becomes the empty string. -/
def normalise_status : Option String → String
  | none => ""
  | some s => pyLower (pyStrip s)

/-- `_ensure_status_key`: set both `status` and `state` to `new_status`. -/
def ensure_status_key (issue : Issue) (new_status : String) : Issue :=
  dictSet (dictSet issue "status" (JValue.str new_status)) "state" (JValue.str new_status)

/-- The two-step status read repeated in `list_open_issues`,
`close_implemented_issues` and `complete_open_issues`: normalise the
`status` value and, when that is empty, fall back to the `state` value. -/
def effectiveStatus (issue : Issue) : String :=
  let status := normalise_status (getStr? issue "status")
  if status = "" then normalise_status (getStr? issue "state") else status

/-! ## Query and mutation operations -/

/-- The open-status set of `list_open_issues`. -/
def open_statuses : List String := ["open", "opened", "todo", "backlog", "in_progress"]

/-- `list_open_issues` on an in-memory sequence: the appending loop over
`issues` keeping entries whose effective status is in `open_statuses`. -/
def list_open_issues (issues : List Issue) : List Issue :=
  issues.foldl
    (fun result issue =>
      if open_statuses.contains (effectiveStatus issue) then result ++ [issue] else result)
    []

/-- Loop body of `close_implemented_issues`: an issue whose effective
status is `implemented` gets both status fields set to `closed` and
`closed_at` stamped with `ts` when absent. -/
def closeStep (ts : String) (issue : Issue) : Issue :=
  if effectiveStatus issue = "implemented" then
    setdefault (ensure_status_key issue "closed") "closed_at" (JValue.str ts)
  else issue

/-- `close_implemented_issues` on an in-memory sequence (the in-place
update loop, element by element; `ts` is the value of `_timestamp()`). -/
def close_implemented_issues (ts : String) (issues : List Issue) : List Issue :=
  issues.map (closeStep ts)

/-- Loop body of `complete_open_issues`: an issue whose effective status is
`open` or `opened` gets both status fields set to `completed` and
`completed_at` stamped with `ts` when absent. -/
def completeStep (ts : String) (issue : Issue) : Issue :=
  if effectiveStatus issue = "open" ∨ effectiveStatus issue = "opened" then
    setdefault (ensure_status_key issue "completed") "completed_at" (JValue.str ts)
  else issue

/-- `complete_open_issues` on an in-memory sequence. -/
def complete_open_issues (ts : String) (issues : List Issue) : List Issue :=
  issues.map (completeStep ts)

/-! ## Persistence control flow

The `issues = None` / `persist` branching of the two mutation functions,
with the file modelled explicitly: the result is the returned list paired
with `some newContent` when `save_issues` was called and `none` when it was
not. -/

/-- `close_implemented_issues(issues, file_path)` with the file state
explicit: `issuesArg = none` loads from the file and persists the update;
a supplied sequence is updated without touching the file. -/
def close_implemented_issues_io (ts : String) (issuesArg : Option (List Issue))
    (fileContent : List Issue) : List Issue × Option (List Issue) :=
  match issuesArg with
  | none =>
      let updated := close_implemented_issues ts fileContent
      (updated, some updated)
  | some issues => (close_implemented_issues ts issues, none)

/-- `complete_open_issues(issues, file_path)` with the file state explicit. -/
def complete_open_issues_io (ts : String) (issuesArg : Option (List Issue))
    (fileContent : List Issue) : List Issue × Option (List Issue) :=
  match issuesArg with
  | none =>
      let updated := complete_open_issues ts fileContent
      (updated, some updated)
  | some issues => (complete_open_issues ts issues, none)

/-! ## Loader / saver

`save_issues` writes `json.dump(list(issues), sort_keys=True)`: the file
receives the JSON document with every object's keys in sorted order (at
every nesting depth), which is what `json.load` then reads back.  The file
is modelled as holding the parsed JSON document, i.e. a `JValue` whose
objects are key-sorted. -/

/-- Insert a key-value pair into a key-sorted field list (helper for the
`sort_keys=True` serialisation order). -/
def insertPair (p : String × JValue) : List (String × JValue) → List (String × JValue)
  | [] => [p]
  | q :: rest => if strLe p.1 q.1 then p :: q :: rest else q :: insertPair p rest

/-- Sort a field list by key (insertion sort); with the distinct keys of a
Python dict this is the order `sort_keys=True` emits. -/
def sortPairs : List (String × JValue) → List (String × JValue)
  | [] => []
  | p :: rest => insertPair p (sortPairs rest)

mutual

/-- A JSON document as serialised with `sort_keys=True`: every object's
field list, at every depth, in key-sorted order. -/
def sortKeys : JValue → JValue
  | .null => .null
  | .bool b => .bool b
  | .num n => .num n
  | .str s => .str s
  | .arr xs => .arr (sortKeysList xs)
  | .obj fs => .obj (sortPairs (sortKeysFields fs))

def sortKeysList : List JValue → List JValue
  | [] => []
  | x :: xs => sortKeys x :: sortKeysList xs

def sortKeysFields : List (String × JValue) → List (String × JValue)
  | [] => []
  | p :: ps => (p.1, sortKeys p.2) :: sortKeysFields ps

end

/-- `save_issues`: the JSON document written to the file — the list of
records serialised with sorted keys and stable formatting. -/
def save_issues (issues : List Issue) : JValue :=
  sortKeys (JValue.arr (issues.map JValue.obj))

/-- The normalisation loop of `load_issues`: every entry must be a JSON
object; the first non-object raises `ValueError`. -/
def toRecords : List JValue → Except String (List Issue)
  | [] => .ok []
  | JValue.obj fields :: rest => (toRecords rest).map (fields :: ·)
  | _ :: _ => .error "Each issue entry must be a JSON object"

/-- `load_issues` on a parsed JSON document: the content must be a list of
objects, which is returned unchanged; anything else raises `ValueError`. -/
def load_issues (data : JValue) : Except String (List Issue) :=
  match data with
  | JValue.arr items => toRecords items
  | _ => .error "The issues file must contain a JSON list"

/-! ## File locator (`find_issues_file`)

The file system is abstracted by `isFile : String → Bool`, the existence
check on `.git`, and the (existing) `*.json` files that `rglob` yields
under the root, each given as a `(path, filename)` pair in traversal
order.  Paths are plain strings joined with `/`. -/

/-- `root / name` path join. -/
def joinPath (root name : String) : String := root ++ "/" ++ name

/-- The `DEFAULT_ISSUE_FILE_CANDIDATES` tuple. -/
def DEFAULT_ISSUE_FILE_CANDIDATES : List String :=
  ["git_issues.json", "GitIssues.json", "issues.json", "git-issues.json", "Git Issues.json"]

/-- `find_issues_file`:
`explicit_path` wins outright (raising when absent); else a non-empty
`GIT_ISSUES_FILE` that names an existing file; else the candidates under
`search_root`, then under `search_root/.git` when that directory exists,
then the first `rglob("*.json")` hit whose filename is a candidate; else
`FileNotFoundError`. -/
def envHit (envVar : Option String) (isFile : String → Bool) : Option String :=
  match envVar with
  | some e => if e ≠ "" && isFile e then some e else none
  | none => none

def find_issues_file (explicit_path : Option String) (envVar : Option String)
    (isFile : String → Bool) (gitDirExists : Bool) (search_root : String)
    (candidates : List String) (rglobJson : List (String × String)) :
    Except String String :=
  match explicit_path with
  | some p => if isFile p then .ok p else .error ("Issues file not found at " ++ p)
  | none =>
    match envHit envVar isFile with
    | some e => .ok e
    | none =>
      match candidates.find? (fun c => isFile (joinPath search_root c)) with
      | some c => .ok (joinPath search_root c)
      | none =>
        match (if gitDirExists then
                 candidates.find? (fun c => isFile (joinPath (joinPath search_root ".git") c))
               else none) with
        | some c => .ok (joinPath (joinPath search_root ".git") c)
        | none =>
          match rglobJson.find? (fun pn => candidates.contains pn.2) with
          | some pn => .ok pn.1
          | none => .error "Unable to locate a Git Issues JSON file"

/-! ## Lemmas: dict primitives -/

theorem dictGet_dictSet_self (i : Issue) (k : String) (v : JValue) :
    dictGet (dictSet i k v) k = some v := by
  induction i with
  | nil => simp [dictGet, dictSet]
  | cons p rest ih =>
      by_cases h : p.1 = k
      · simp [dictSet, dictGet, h]
      · simp [dictSet, dictGet, h, ih]

theorem dictGet_dictSet_ne (i : Issue) (k k' : String) (v : JValue) (h : k' ≠ k) :
    dictGet (dictSet i k v) k' = dictGet i k' := by
  induction i with
  | nil => simp [dictGet, dictSet, Ne.symm h]
  | cons p rest ih =>
      by_cases h1 : p.1 = k
      · subst h1
        simp [dictSet, dictGet, Ne.symm h, h]
      · by_cases h2 : p.1 = k'
        · simp [dictSet, dictGet, h1, h2, h]
        · simp [dictSet, dictGet, h1, h2, ih]

theorem dictGet_append_single_ne (i : Issue) (k k' : String) (v : JValue) (h : k' ≠ k) :
    dictGet (i ++ [(k, v)]) k' = dictGet i k' := by
  induction i with
  | nil => simp [dictGet, Ne.symm h]
  | cons p rest ih =>
      by_cases h2 : p.1 = k'
      · simp [dictGet, h2]
      · simp [dictGet, h2, ih]

theorem dictGet_append_single_self (i : Issue) (k : String) (v : JValue)
    (h : dictGet i k = none) : dictGet (i ++ [(k, v)]) k = some v := by
  induction i with
  | nil => simp [dictGet]
  | cons p rest ih =>
      by_cases h2 : p.1 = k
      · simp [dictGet, h2] at h
      · simp [dictGet, h2] at h ⊢
        exact ih h

theorem setdefault_of_present (i : Issue) (k : String) (v w : JValue)
    (h : dictGet i k = some w) : setdefault i k v = i := by
  simp [setdefault, h]

theorem dictGet_setdefault_self_absent (i : Issue) (k : String) (v : JValue)
    (h : dictGet i k = none) : dictGet (setdefault i k v) k = some v := by
  simp only [setdefault, h, Option.isSome_none, Bool.false_eq_true, if_false]
  exact dictGet_append_single_self i k v h

theorem dictGet_setdefault_ne (i : Issue) (k k' : String) (v : JValue) (h : k' ≠ k) :
    dictGet (setdefault i k v) k' = dictGet i k' := by
  by_cases hp : (dictGet i k).isSome
  · simp [setdefault, hp]
  · simp only [setdefault, hp, Bool.false_eq_true, if_false]
    exact dictGet_append_single_ne i k k' v h

/-! ## Lemmas: status fields after `_ensure_status_key` and the loop bodies -/

theorem dictGet_ensure_status (i : Issue) (s : String) :
    dictGet (ensure_status_key i s) "status" = some (JValue.str s) := by
  unfold ensure_status_key
  rw [dictGet_dictSet_ne _ _ _ _ (by decide : ("status" : String) ≠ "state")]
  exact dictGet_dictSet_self i "status" (JValue.str s)

theorem dictGet_ensure_state (i : Issue) (s : String) :
    dictGet (ensure_status_key i s) "state" = some (JValue.str s) :=
  dictGet_dictSet_self _ "state" (JValue.str s)

theorem dictGet_ensure_other (i : Issue) (s k : String) (h1 : k ≠ "status")
    (h2 : k ≠ "state") : dictGet (ensure_status_key i s) k = dictGet i k := by
  unfold ensure_status_key
  rw [dictGet_dictSet_ne _ _ _ _ h2, dictGet_dictSet_ne _ _ _ _ h1]

theorem closeStep_of_not_implemented (ts : String) (i : Issue)
    (h : effectiveStatus i ≠ "implemented") : closeStep ts i = i := by
  simp [closeStep, h]

theorem closeStep_status (ts : String) (i : Issue) (h : effectiveStatus i = "implemented") :
    dictGet (closeStep ts i) "status" = some (JValue.str "closed") := by
  simp only [closeStep, h, if_true]
  rw [dictGet_setdefault_ne _ _ _ _ (by decide : ("status" : String) ≠ "closed_at")]
  exact dictGet_ensure_status i "closed"

theorem closeStep_state (ts : String) (i : Issue) (h : effectiveStatus i = "implemented") :
    dictGet (closeStep ts i) "state" = some (JValue.str "closed") := by
  simp only [closeStep, h, if_true]
  rw [dictGet_setdefault_ne _ _ _ _ (by decide : ("state" : String) ≠ "closed_at")]
  exact dictGet_ensure_state i "closed"

theorem closeStep_closed_at_absent (ts : String) (i : Issue)
    (h : effectiveStatus i = "implemented") (ha : dictGet i "closed_at" = none) :
    dictGet (closeStep ts i) "closed_at" = some (JValue.str ts) := by
  simp only [closeStep, h, if_true]
  apply dictGet_setdefault_self_absent
  rw [dictGet_ensure_other _ _ _ (by decide) (by decide)]
  exact ha

theorem closeStep_closed_at_present (ts : String) (i : Issue) (v : JValue)
    (h : effectiveStatus i = "implemented") (hp : dictGet i "closed_at" = some v) :
    dictGet (closeStep ts i) "closed_at" = some v := by
  simp only [closeStep, h, if_true]
  have he : dictGet (ensure_status_key i "closed") "closed_at" = some v := by
    rw [dictGet_ensure_other _ _ _ (by decide) (by decide)]
    exact hp
  rw [setdefault_of_present _ _ _ _ he]
  exact he

theorem closeStep_other (ts : String) (i : Issue) (k : String) (h1 : k ≠ "status")
    (h2 : k ≠ "state") (h3 : k ≠ "closed_at") :
    dictGet (closeStep ts i) k = dictGet i k := by
  unfold closeStep
  by_cases h : effectiveStatus i = "implemented"
  · simp only [h, if_true]
    rw [dictGet_setdefault_ne _ _ _ _ h3]
    exact dictGet_ensure_other i "closed" k h1 h2
  · simp [h]

theorem completeStep_of_not_open (ts : String) (i : Issue)
    (h : ¬(effectiveStatus i = "open" ∨ effectiveStatus i = "opened")) :
    completeStep ts i = i := by
  simp [completeStep, h]

theorem completeStep_status (ts : String) (i : Issue)
    (h : effectiveStatus i = "open" ∨ effectiveStatus i = "opened") :
    dictGet (completeStep ts i) "status" = some (JValue.str "completed") := by
  simp only [completeStep, h, if_true]
  rw [dictGet_setdefault_ne _ _ _ _ (by decide : ("status" : String) ≠ "completed_at")]
  exact dictGet_ensure_status i "completed"

theorem completeStep_state (ts : String) (i : Issue)
    (h : effectiveStatus i = "open" ∨ effectiveStatus i = "opened") :
    dictGet (completeStep ts i) "state" = some (JValue.str "completed") := by
  simp only [completeStep, h, if_true]
  rw [dictGet_setdefault_ne _ _ _ _ (by decide : ("state" : String) ≠ "completed_at")]
  exact dictGet_ensure_state i "completed"

theorem completeStep_completed_at_absent (ts : String) (i : Issue)
    (h : effectiveStatus i = "open" ∨ effectiveStatus i = "opened")
    (ha : dictGet i "completed_at" = none) :
    dictGet (completeStep ts i) "completed_at" = some (JValue.str ts) := by
  simp only [completeStep, h, if_true]
  apply dictGet_setdefault_self_absent
  rw [dictGet_ensure_other _ _ _ (by decide) (by decide)]
  exact ha

theorem completeStep_completed_at_present (ts : String) (i : Issue) (v : JValue)
    (h : effectiveStatus i = "open" ∨ effectiveStatus i = "opened")
    (hp : dictGet i "completed_at" = some v) :
    dictGet (completeStep ts i) "completed_at" = some v := by
  simp only [completeStep, h, if_true]
  have he : dictGet (ensure_status_key i "completed") "completed_at" = some v := by
    rw [dictGet_ensure_other _ _ _ (by decide) (by decide)]
    exact hp
  rw [setdefault_of_present _ _ _ _ he]
  exact he

theorem completeStep_other (ts : String) (i : Issue) (k : String) (h1 : k ≠ "status")
    (h2 : k ≠ "state") (h3 : k ≠ "completed_at") :
    dictGet (completeStep ts i) k = dictGet i k := by
  unfold completeStep
  by_cases h : effectiveStatus i = "open" ∨ effectiveStatus i = "opened"
  · simp only [h, if_true]
    rw [dictGet_setdefault_ne _ _ _ _ h3]
    exact dictGet_ensure_other i "completed" k h1 h2
  · simp [h]

/-! ## Lemmas: effective status -/

theorem effectiveStatus_of_status_nonempty (i : Issue)
    (h : normalise_status (getStr? i "status") ≠ "") :
    effectiveStatus i = normalise_status (getStr? i "status") := by
  simp only [effectiveStatus]
  rw [if_neg h]

theorem getStr?_eq_some_of_dictGet (i : Issue) (k s : String)
    (h : dictGet i k = some (JValue.str s)) : getStr? i k = some s := by
  unfold getStr?
  rw [h]

theorem effectiveStatus_closeStep (ts : String) (i : Issue)
    (h : effectiveStatus i = "implemented") :
    effectiveStatus (closeStep ts i) = "closed" := by
  have hs : getStr? (closeStep ts i) "status" = some "closed" :=
    getStr?_eq_some_of_dictGet _ _ _ (closeStep_status ts i h)
  rw [effectiveStatus_of_status_nonempty _ (by rw [hs]; decide), hs]
  decide

theorem effectiveStatus_completeStep (ts : String) (i : Issue)
    (h : effectiveStatus i = "open" ∨ effectiveStatus i = "opened") :
    effectiveStatus (completeStep ts i) = "completed" := by
  have hs : getStr? (completeStep ts i) "status" = some "completed" :=
    getStr?_eq_some_of_dictGet _ _ _ (completeStep_status ts i h)
  rw [effectiveStatus_of_status_nonempty _ (by rw [hs]; decide), hs]
  decide

theorem closeStep_idem (ts ts' : String) (i : Issue) :
    closeStep ts' (closeStep ts i) = closeStep ts i := by
  by_cases h : effectiveStatus i = "implemented"
  · apply closeStep_of_not_implemented
    rw [effectiveStatus_closeStep ts i h]
    decide
  · rw [closeStep_of_not_implemented ts i h, closeStep_of_not_implemented ts' i h]

theorem completeStep_idem (ts ts' : String) (i : Issue) :
    completeStep ts' (completeStep ts i) = completeStep ts i := by
  by_cases h : effectiveStatus i = "open" ∨ effectiveStatus i = "opened"
  · apply completeStep_of_not_open
    rw [effectiveStatus_completeStep ts i h]
    decide
  · rw [completeStep_of_not_open ts i h, completeStep_of_not_open ts' i h]

/-! ## Lemmas: the appending loop of `list_open_issues` is a filter -/

theorem foldl_append_filter (p : Issue → Bool) :
    ∀ (issues acc : List Issue),
      issues.foldl (fun r i => if p i then r ++ [i] else r) acc = acc ++ issues.filter p
  | [], acc => by simp
  | i :: rest, acc => by
      by_cases h : p i
      · simp [List.filter_cons, h, foldl_append_filter p rest (acc ++ [i])]
      · simp [List.filter_cons, h, foldl_append_filter p rest acc]

theorem contains_open_statuses (s : String) :
    open_statuses.contains s
      = (s == "open" || s == "opened" || s == "todo" || s == "backlog"
          || s == "in_progress") := by
  simp only [open_statuses, List.contains_cons, List.contains_nil, Bool.or_false,
    Bool.or_assoc]

theorem list_open_issues_eq_filter (issues : List Issue) :
    list_open_issues issues
      = issues.filter (fun i => open_statuses.contains (effectiveStatus i)) := by
  unfold list_open_issues
  simpa using foldl_append_filter (fun i => open_statuses.contains (effectiveStatus i)) issues []

/-! ## Example records used by the witnesses -/

def exOpen : Issue :=
  [("id", JValue.num 1), ("title", JValue.str "Add health endpoint"),
   ("status", JValue.str " Open ")]

def exImplemented : Issue := [("id", JValue.num 2), ("status", JValue.str "implemented")]

def exStateOpened : Issue := [("id", JValue.num 3), ("state", JValue.str "opened")]

def exClosedOpen : Issue :=
  [("id", JValue.num 4), ("status", JValue.str "closed"), ("state", JValue.str "open")]

def exTodo : Issue := [("id", JValue.num 5), ("status", JValue.str "todo")]

/-! ## Claim theorems -/

/-- C1: `list_open_issues` returns exactly those issues, in their original
order, whose normalized status — the value under `status`, falling back to
`state`, lower-cased and trimmed, missing treated as the empty string — is
one of {open, opened, todo, backlog, in_progress}: it filters the input
sequence by that predicate. -/
theorem list_open_issues_spec (issues : List Issue)
    (hwf : ∀ i ∈ issues, StatusWF i = true) :
    list_open_issues issues = issues.filter (fun i =>
      let s := normalise_status (getStr? i "status")
      let s' := if s = "" then normalise_status (getStr? i "state") else s
      s' == "open" || s' == "opened" || s' == "todo" || s' == "backlog"
        || s' == "in_progress") := by
  rw [list_open_issues_eq_filter]
  rcases hwf with _
  congr 1
  funext i
  rw [contains_open_statuses]
  rfl

/-- Witness for C1 on a concrete mixed sequence. -/
theorem list_open_issues_spec_witness :
    ∃ l, list_open_issues l = l.filter (fun i =>
      let s := normalise_status (getStr? i "status")
      let s' := if s = "" then normalise_status (getStr? i "state") else s
      s' == "open" || s' == "opened" || s' == "todo" || s' == "backlog"
        || s' == "in_progress") :=
  ⟨[exOpen, exImplemented, exStateOpened, exClosedOpen, exTodo],
    list_open_issues_spec _ (by decide)⟩

/-- C2: after `close_implemented_issues`, every issue whose normalized
status was `implemented` has both `status` and `state` equal to `closed`
and has a `closed_at` field: the run's timestamp is stamped when
`closed_at` was absent, and a pre-existing `closed_at` value is kept. -/
theorem close_implemented_issues_spec (ts : String) (issues : List Issue)
    (hwf : ∀ i ∈ issues, StatusWF i = true) :
    ∀ (n : Nat) (i : Issue), issues[n]? = some i → effectiveStatus i = "implemented" →
      ∃ i', (close_implemented_issues ts issues)[n]? = some i' ∧
        dictGet i' "status" = some (JValue.str "closed") ∧
        dictGet i' "state" = some (JValue.str "closed") ∧
        (dictGet i "closed_at" = none → dictGet i' "closed_at" = some (JValue.str ts)) ∧
        (∀ v, dictGet i "closed_at" = some v → dictGet i' "closed_at" = some v) := by
  rcases hwf with _
  intro n i hget hst
  refine ⟨closeStep ts i, ?_, closeStep_status ts i hst, closeStep_state ts i hst,
    closeStep_closed_at_absent ts i hst, fun v => closeStep_closed_at_present ts i v hst⟩
  unfold close_implemented_issues
  rw [List.getElem?_map, hget]
  rfl

/-- Witness for C2: a concrete `implemented` issue without `closed_at`. -/
theorem close_implemented_issues_spec_witness :
    ∃ i', (close_implemented_issues "2024-05-01T00:00:00+00:00"
              [exOpen, exImplemented])[1]? = some i' ∧
      dictGet i' "status" = some (JValue.str "closed") ∧
      dictGet i' "state" = some (JValue.str "closed") ∧
      (dictGet exImplemented "closed_at" = none →
        dictGet i' "closed_at" = some (JValue.str "2024-05-01T00:00:00+00:00")) ∧
      (∀ v, dictGet exImplemented "closed_at" = some v →
        dictGet i' "closed_at" = some v) :=
  close_implemented_issues_spec "2024-05-01T00:00:00+00:00" [exOpen, exImplemented]
    (by decide) 1 exImplemented (by decide) (by decide)

/-- C3: after `complete_open_issues`, every issue whose normalized status
was `open` or `opened` has both `status` and `state` equal to `completed`
and a `completed_at` field stamped only when absent; issues with any other
normalized status (`todo`, `backlog`, `in_progress` included) are left
exactly as they were. -/
theorem complete_open_issues_spec (ts : String) (issues : List Issue)
    (hwf : ∀ i ∈ issues, StatusWF i = true) :
    ∀ (n : Nat) (i : Issue), issues[n]? = some i →
      ((effectiveStatus i = "open" ∨ effectiveStatus i = "opened") →
        ∃ i', (complete_open_issues ts issues)[n]? = some i' ∧
          dictGet i' "status" = some (JValue.str "completed") ∧
          dictGet i' "state" = some (JValue.str "completed") ∧
          (dictGet i "completed_at" = none →
            dictGet i' "completed_at" = some (JValue.str ts)) ∧
          (∀ v, dictGet i "completed_at" = some v →
            dictGet i' "completed_at" = some v)) ∧
      (¬(effectiveStatus i = "open" ∨ effectiveStatus i = "opened") →
        (complete_open_issues ts issues)[n]? = some i) := by
  rcases hwf with _
  intro n i hget
  have hmap : (complete_open_issues ts issues)[n]? = some (completeStep ts i) := by
    unfold complete_open_issues
    rw [List.getElem?_map, hget]
    rfl
  constructor
  · intro hst
    exact ⟨completeStep ts i, hmap, completeStep_status ts i hst,
      completeStep_state ts i hst, completeStep_completed_at_absent ts i hst,
      fun v => completeStep_completed_at_present ts i v hst⟩
  · intro hst
    rw [hmap, completeStep_of_not_open ts i hst]

/-- Witness for C3: one `opened`-via-`state` issue is completed, one
`todo` issue is untouched. -/
theorem complete_open_issues_spec_witness :
    (((effectiveStatus exStateOpened = "open" ∨ effectiveStatus exStateOpened = "opened") →
      ∃ i', (complete_open_issues "2024-05-01T00:00:00+00:00"
                [exStateOpened, exTodo])[0]? = some i' ∧
        dictGet i' "status" = some (JValue.str "completed") ∧
        dictGet i' "state" = some (JValue.str "completed") ∧
        (dictGet exStateOpened "completed_at" = none →
          dictGet i' "completed_at" = some (JValue.str "2024-05-01T00:00:00+00:00")) ∧
        (∀ v, dictGet exStateOpened "completed_at" = some v →
          dictGet i' "completed_at" = some v)) ∧
    (¬(effectiveStatus exStateOpened = "open" ∨ effectiveStatus exStateOpened = "opened") →
      (complete_open_issues "2024-05-01T00:00:00+00:00"
          [exStateOpened, exTodo])[0]? = some exStateOpened)) ∧
    ((effectiveStatus exTodo = "open" ∨ effectiveStatus exTodo = "opened") ∨
      (complete_open_issues "2024-05-01T00:00:00+00:00"
          [exStateOpened, exTodo])[1]? = some exTodo) :=
  ⟨complete_open_issues_spec "2024-05-01T00:00:00+00:00" [exStateOpened, exTodo]
      (by decide) 0 exStateOpened (by decide),
    Or.inr ((complete_open_issues_spec "2024-05-01T00:00:00+00:00" [exStateOpened, exTodo]
      (by decide) 1 exTodo (by decide)).2 (by decide))⟩

/-- C4: both mutation operations preserve the length and order of the
sequence, leave every non-matching record unchanged, and on a matching
record change only `status`, `state` and the respective timestamp field,
all other fields keeping their values. -/
theorem mutation_frame_spec (ts : String) (issues : List Issue)
    (hwf : ∀ i ∈ issues, StatusWF i = true) :
    (close_implemented_issues ts issues).length = issues.length ∧
    (complete_open_issues ts issues).length = issues.length ∧
    ∀ (n : Nat) (i : Issue), issues[n]? = some i →
      (effectiveStatus i ≠ "implemented" →
        (close_implemented_issues ts issues)[n]? = some i) ∧
      (∀ i', (close_implemented_issues ts issues)[n]? = some i' →
        ∀ k, k ≠ "status" → k ≠ "state" → k ≠ "closed_at" →
          dictGet i' k = dictGet i k) ∧
      (¬(effectiveStatus i = "open" ∨ effectiveStatus i = "opened") →
        (complete_open_issues ts issues)[n]? = some i) ∧
      (∀ i', (complete_open_issues ts issues)[n]? = some i' →
        ∀ k, k ≠ "status" → k ≠ "state" → k ≠ "completed_at" →
          dictGet i' k = dictGet i k) := by
  rcases hwf with _
  refine ⟨List.length_map _ _, List.length_map _ _, ?_⟩
  intro n i hget
  have hclose : (close_implemented_issues ts issues)[n]? = some (closeStep ts i) := by
    unfold close_implemented_issues
    rw [List.getElem?_map, hget]
    rfl
  have hcomplete : (complete_open_issues ts issues)[n]? = some (completeStep ts i) := by
    unfold complete_open_issues
    rw [List.getElem?_map, hget]
    rfl
  refine ⟨?_, ?_, ?_, ?_⟩
  · intro hst
    rw [hclose, closeStep_of_not_implemented ts i hst]
  · intro i' hi' k h1 h2 h3
    rw [hclose] at hi'
    cases hi'
    exact closeStep_other ts i k h1 h2 h3
  · intro hst
    rw [hcomplete, completeStep_of_not_open ts i hst]
  · intro i' hi' k h1 h2 h3
    rw [hcomplete] at hi'
    cases hi'
    exact completeStep_other ts i k h1 h2 h3

/-- Witness for C4 on a concrete two-element sequence: lengths are kept
and the `id` field of the mutated record is untouched. -/
theorem mutation_frame_spec_witness :
    (close_implemented_issues "T0" [exImplemented, exClosedOpen]).length = 2 ∧
    ((close_implemented_issues "T0" [exImplemented, exClosedOpen])[1]? = some exClosedOpen) ∧
    (∀ i', (close_implemented_issues "T0" [exImplemented, exClosedOpen])[0]? = some i' →
      dictGet i' "id" = dictGet exImplemented "id") := by
  have h := mutation_frame_spec "T0" [exImplemented, exClosedOpen] (by decide)
  have h0 := h.2.2 0 exImplemented (by decide)
  have h1 := h.2.2 1 exClosedOpen (by decide)
  exact ⟨h.1, h1.1 (by decide),
    fun i' hi' => h0.2.1 i' hi' "id" (by decide) (by decide) (by decide)⟩

/-- C5: each mutation operation writes the updated sequence back to the
issues file exactly when the caller did not supply an in-memory sequence;
a supplied sequence leaves the file untouched, and in the persisting case
the written content is the updated sequence itself. -/
theorem persist_iff_loaded (ts : String) (a : Option (List Issue)) (f : List Issue) :
    ((close_implemented_issues_io ts a f).2.isSome = a.isNone) ∧
    ((complete_open_issues_io ts a f).2.isSome = a.isNone) ∧
    ((close_implemented_issues_io ts none f).2 = some (close_implemented_issues ts f)) ∧
    ((complete_open_issues_io ts none f).2 = some (complete_open_issues ts f)) := by
  cases a <;> exact ⟨rfl, rfl, rfl, rfl⟩

/-- C9: the `state` key is consulted only when the `status` value
normalizes to the empty string: an issue whose `status` normalizes to a
non-empty string keeps that effective status whatever `state` holds, so a
`status = closed, state = open` issue is neither listed as open nor
mutated by either operation. -/
theorem state_shadowed_by_status (ts : String) (i : Issue) (v : JValue)
    (h : normalise_status (getStr? i "status") ≠ "") :
    effectiveStatus i = normalise_status (getStr? i "status") ∧
    effectiveStatus (dictSet i "state" v) = normalise_status (getStr? i "status") ∧
    (open_statuses.contains (effectiveStatus i) = false → list_open_issues [i] = []) ∧
    (effectiveStatus i ≠ "implemented" → close_implemented_issues ts [i] = [i]) ∧
    (¬(effectiveStatus i = "open" ∨ effectiveStatus i = "opened") →
      complete_open_issues ts [i] = [i]) := by
  have hget : getStr? (dictSet i "state" v) "status" = getStr? i "status" := by
    unfold getStr?
    rw [dictGet_dictSet_ne _ _ _ _ (by decide : ("status" : String) ≠ "state")]
  refine ⟨effectiveStatus_of_status_nonempty i h, ?_, ?_, ?_, ?_⟩
  · rw [effectiveStatus_of_status_nonempty _ (by rw [hget]; exact h), hget]
  · intro hc
    rw [list_open_issues_eq_filter]
    simp only [List.filter_cons, List.filter_nil, hc, Bool.false_eq_true, if_false]
  · intro hst
    unfold close_implemented_issues
    rw [List.map_singleton, closeStep_of_not_implemented ts i hst]
  · intro hst
    unfold complete_open_issues
    rw [List.map_singleton, completeStep_of_not_open ts i hst]

/-- Witness for C9: the `status = closed, state = open` issue. -/
theorem state_shadowed_by_status_witness :
    effectiveStatus exClosedOpen = normalise_status (getStr? exClosedOpen "status") ∧
    effectiveStatus (dictSet exClosedOpen "state" (JValue.str "open"))
      = normalise_status (getStr? exClosedOpen "status") ∧
    (open_statuses.contains (effectiveStatus exClosedOpen) = false →
      list_open_issues [exClosedOpen] = []) ∧
    (effectiveStatus exClosedOpen ≠ "implemented" →
      close_implemented_issues "T1" [exClosedOpen] = [exClosedOpen]) ∧
    (¬(effectiveStatus exClosedOpen = "open" ∨ effectiveStatus exClosedOpen = "opened") →
      complete_open_issues "T1" [exClosedOpen] = [exClosedOpen]) :=
  state_shadowed_by_status "T1" exClosedOpen (JValue.str "open") (by decide)

/-- C10: both mutation operations are idempotent on an in-memory sequence:
a second application (with any later timestamp) changes nothing, because
every matched issue's status became `closed` (resp. `completed`). -/
theorem mutations_idempotent (ts ts' : String) (issues : List Issue)
    (hwf : ∀ i ∈ issues, StatusWF i = true) :
    close_implemented_issues ts' (close_implemented_issues ts issues)
      = close_implemented_issues ts issues ∧
    complete_open_issues ts' (complete_open_issues ts issues)
      = complete_open_issues ts issues := by
  rcases hwf with _
  constructor
  · unfold close_implemented_issues
    rw [List.map_map]
    congr 1
    funext i
    exact closeStep_idem ts ts' i
  · unfold complete_open_issues
    rw [List.map_map]
    congr 1
    funext i
    exact completeStep_idem ts ts' i

/-- Witness for C10 on a concrete mixed sequence. -/
theorem mutations_idempotent_witness :
    close_implemented_issues "T3" (close_implemented_issues "T2"
        [exOpen, exImplemented, exStateOpened])
      = close_implemented_issues "T2" [exOpen, exImplemented, exStateOpened] ∧
    complete_open_issues "T3" (complete_open_issues "T2"
        [exOpen, exImplemented, exStateOpened])
      = complete_open_issues "T2" [exOpen, exImplemented, exStateOpened] :=
  mutations_idempotent "T2" "T3" [exOpen, exImplemented, exStateOpened] (by decide)

/-! ## Lemmas: `load_issues` format checking -/

theorem toRecords_map_obj : ∀ records : List Issue,
    toRecords (records.map JValue.obj) = Except.ok records
  | [] => rfl
  | r :: rest => by
      simp only [List.map_cons, toRecords, toRecords_map_obj rest, Except.map]

theorem toRecords_ok_inv : ∀ items : List JValue, ∀ out,
    toRecords items = Except.ok out → ∃ records : List Issue, items = records.map JValue.obj
  | [], _, _ => ⟨[], rfl⟩
  | JValue.obj fields :: rest, out, h => by
      cases hrest : toRecords rest with
      | ok out' =>
          obtain ⟨records, hrec⟩ := toRecords_ok_inv rest out' hrest
          exact ⟨fields :: records, by rw [List.map_cons, hrec]⟩
      | error e =>
          rw [toRecords, hrest] at h
          cases h
  | JValue.null :: _, _, h => by cases h
  | JValue.bool _ :: _, _, h => by cases h
  | JValue.num _ :: _, _, h => by cases h
  | JValue.str _ :: _, _, h => by cases h
  | JValue.arr _ :: _, _, h => by cases h

/-- C7: `load_issues` raises the format `ValueError` if and only if the
parsed JSON content is not a list of objects; on a JSON array of objects
it returns exactly those records, none of them modified. -/
theorem load_issues_format (data : JValue) :
    ((∃ e, load_issues data = Except.error e) ↔
      ¬ ∃ records : List Issue, data = JValue.arr (records.map JValue.obj)) ∧
    (∀ records : List Issue, data = JValue.arr (records.map JValue.obj) →
      load_issues data = Except.ok records) := by
  have hok : ∀ records : List Issue, data = JValue.arr (records.map JValue.obj) →
      load_issues data = Except.ok records := by
    intro records hdata
    rw [hdata]
    unfold load_issues
    exact toRecords_map_obj records
  refine ⟨⟨?_, ?_⟩, hok⟩
  · rintro ⟨e, herr⟩ ⟨records, hdata⟩
    rw [hok records hdata] at herr
    cases herr
  · intro hno
    cases data with
    | arr items =>
        cases hout : toRecords items with
        | ok out =>
            obtain ⟨records, hrec⟩ := toRecords_ok_inv items out hout
            exact absurd ⟨records, by rw [hrec]⟩ hno
        | error e => exact ⟨e, hout⟩
    | null => exact ⟨"The issues file must contain a JSON list", rfl⟩
    | bool b => exact ⟨"The issues file must contain a JSON list", rfl⟩
    | num n => exact ⟨"The issues file must contain a JSON list", rfl⟩
    | str s => exact ⟨"The issues file must contain a JSON list", rfl⟩
    | obj fs => exact ⟨"The issues file must contain a JSON list", rfl⟩

/-- Witness for C7: a well-formed two-record document loads as-is, and a
non-list document errors. -/
theorem load_issues_format_witness :
    load_issues (JValue.arr [JValue.obj exOpen, JValue.obj exImplemented])
      = Except.ok [exOpen, exImplemented] ∧
    ∃ e, load_issues (JValue.num 3) = Except.error e :=
  ⟨(load_issues_format (JValue.arr [JValue.obj exOpen, JValue.obj exImplemented])).2
      [exOpen, exImplemented] rfl,
    (load_issues_format (JValue.num 3)).1.mpr
      (by rintro ⟨records, h⟩; cases h)⟩

/-! ## Lemmas: `find_issues_file` -/

/-- With no explicit path and no usable environment variable, the locator
reduces to the root-candidates / `.git` / recursive-scan cascade. -/
theorem find_issues_file_of_env_miss (envVar : Option String) (isFile : String → Bool)
    (gitDirExists : Bool) (root : String) (cands : List String)
    (rg : List (String × String))
    (henv : ∀ e, envVar = some e → e ≠ "" → isFile e = false) :
    find_issues_file none envVar isFile gitDirExists root cands rg =
      match cands.find? (fun c => isFile (joinPath root c)) with
      | some c => .ok (joinPath root c)
      | none =>
        match (if gitDirExists then
                 cands.find? (fun c => isFile (joinPath (joinPath root ".git") c))
               else none) with
        | some c => .ok (joinPath (joinPath root ".git") c)
        | none =>
          match rg.find? (fun pn => cands.contains pn.2) with
          | some pn => .ok pn.1
          | none => .error "Unable to locate a Git Issues JSON file" := by
  have henvhit : envHit envVar isFile = none := by
    cases envVar with
    | none => rfl
    | some e =>
        by_cases he : e = ""
        · simp [envHit, he]
        · simp [envHit, he, henv e rfl he]
  unfold find_issues_file
  rw [henvhit]

/-- C8: `find_issues_file` resolves in the fixed order: an explicit path is
used outright and raises `FileNotFoundError` when missing, with no
fallback; else a non-empty `GIT_ISSUES_FILE` naming an existing file; else
the ordered candidate filenames under the root, then under `.git`, then
the recursive `*.json` scan for a candidate filename; else
`FileNotFoundError`. -/
theorem find_issues_file_order (envVar : Option String) (isFile : String → Bool)
    (gitDirExists : Bool) (root : String) (cands : List String)
    (rg : List (String × String)) :
    (∀ p, isFile p = true →
      find_issues_file (some p) envVar isFile gitDirExists root cands rg = .ok p) ∧
    (∀ p, isFile p = false →
      find_issues_file (some p) envVar isFile gitDirExists root cands rg
        = .error ("Issues file not found at " ++ p)) ∧
    (∀ e, envVar = some e → e ≠ "" → isFile e = true →
      find_issues_file none envVar isFile gitDirExists root cands rg = .ok e) ∧
    ((∀ e, envVar = some e → e ≠ "" → isFile e = false) →
      (∀ c, cands.find? (fun c => isFile (joinPath root c)) = some c →
        find_issues_file none envVar isFile gitDirExists root cands rg
          = .ok (joinPath root c)) ∧
      (cands.find? (fun c => isFile (joinPath root c)) = none →
        (gitDirExists = true →
          ∀ c, cands.find? (fun c => isFile (joinPath (joinPath root ".git") c)) = some c →
            find_issues_file none envVar isFile gitDirExists root cands rg
              = .ok (joinPath (joinPath root ".git") c)) ∧
        ((if gitDirExists then
            cands.find? (fun c => isFile (joinPath (joinPath root ".git") c))
          else none) = none →
          (∀ pn, rg.find? (fun pn => cands.contains pn.2) = some pn →
            find_issues_file none envVar isFile gitDirExists root cands rg
              = .ok pn.1) ∧
          (rg.find? (fun pn => cands.contains pn.2) = none →
            find_issues_file none envVar isFile gitDirExists root cands rg
              = .error "Unable to locate a Git Issues JSON file")))) := by
  refine ⟨?_, ?_, ?_, ?_⟩
  · intro p hp
    simp [find_issues_file, hp]
  · intro p hp
    simp [find_issues_file, hp]
  · intro e he hne hf
    subst he
    simp [find_issues_file, envHit, hne, hf]
  · intro henv
    have hred := find_issues_file_of_env_miss envVar isFile gitDirExists root cands rg henv
    refine ⟨?_, ?_⟩
    · intro c hc
      rw [hred, hc]
    · intro hroot
      refine ⟨?_, ?_⟩
      · intro hgit c hc
        rw [hred, hroot, hgit, hc]
        rfl
      · intro hgit
        refine ⟨?_, ?_⟩
        · intro pn hpn
          rw [hred, hroot, hgit, hpn]
        · intro hpn
          rw [hred, hroot, hgit, hpn]

/-- Witness for C8: a file inside `.git` is found once the explicit path,
environment variable and root candidates all miss, while an explicit path
that does not exist raises even though that `.git` candidate matches. -/
theorem find_issues_file_order_witness :
    find_issues_file none (some "") (fun s => s == "root/.git/issues.json") true "root"
        DEFAULT_ISSUE_FILE_CANDIDATES [] = .ok "root/.git/issues.json" ∧
    find_issues_file (some "explicit.json") (some "")
        (fun s => s == "root/.git/issues.json") true "root"
        DEFAULT_ISSUE_FILE_CANDIDATES []
      = .error ("Issues file not found at explicit.json") := by
  have h := find_issues_file_order (some "") (fun s => s == "root/.git/issues.json") true
    "root" DEFAULT_ISSUE_FILE_CANDIDATES []
  have henv : ∀ e, (some "" : Option String) = some e → e ≠ "" →
      (fun s => s == "root/.git/issues.json") e = false :=
    fun e he hne => absurd (Option.some.inj he).symm hne
  refine ⟨?_, h.2.1 "explicit.json" (by decide)⟩
  exact (((h.2.2.2 henv).2 (by decide)).1 rfl "issues.json" (by decide))

/-! ## Lemmas: the key order used by `sort_keys=True` -/

theorem charListLe_total : ∀ x y : List Char, charListLe x y = true ∨ charListLe y x = true
  | [], _ => Or.inl rfl
  | _ :: _, [] => Or.inr rfl
  | a :: as, b :: bs => by
      rcases lt_trichotomy a b with h | h | h
      · left
        simp [charListLe, h]
      · subst h
        simpa [charListLe, lt_irrefl] using charListLe_total as bs
      · right
        simp [charListLe, h]

theorem strLe_total (a b : String) : strLe a b = true ∨ strLe b a = true :=
  charListLe_total a.data b.data

theorem charListLe_trans : ∀ {x y z : List Char},
    charListLe x y = true → charListLe y z = true → charListLe x z = true
  | [], _, _, _, _ => rfl
  | _ :: _, [], _, h, _ => by simp [charListLe] at h
  | _ :: _, _ :: _, [], _, h => by simp [charListLe] at h
  | a :: as, b :: bs, c :: cs, h1, h2 => by
      by_cases hab : a < b
      · by_cases hbc : b < c
        · simp [charListLe, lt_trans hab hbc]
        · by_cases hcb : c < b
          · simp [charListLe, hbc, hcb] at h2
          · have hbc' : b = c := le_antisymm (not_lt.mp hcb) (not_lt.mp hbc)
            subst hbc'
            simp [charListLe, hab]
      · by_cases hba : b < a
        · simp [charListLe, hab, hba] at h1
        · have hab' : a = b := le_antisymm (not_lt.mp hba) (not_lt.mp hab)
          subst hab'
          by_cases hac : a < c
          · simp [charListLe, hac]
          · by_cases hca : c < a
            · simp [charListLe, hac, hca] at h2
            · have hac' : a = c := le_antisymm (not_lt.mp hca) (not_lt.mp hac)
              subst hac'
              simp only [charListLe, lt_irrefl, if_false] at h1 h2 ⊢
              exact charListLe_trans h1 h2

theorem strLe_trans {a b c : String} (h1 : strLe a b = true) (h2 : strLe b c = true) :
    strLe a c = true :=
  charListLe_trans h1 h2

/-! ## Lemmas: `sortPairs` is a permutation sort of the field list -/

theorem insertPair_perm (p : String × JValue) :
    ∀ l : List (String × JValue), (insertPair p l).Perm (p :: l)
  | [] => List.Perm.refl _
  | q :: rest => by
      by_cases hle : strLe p.1 q.1
      · simp [insertPair, hle]
      · simp only [insertPair, hle, if_false]
        exact ((insertPair_perm p rest).cons q).trans (List.Perm.swap p q rest)

theorem sortPairs_perm : ∀ l : List (String × JValue), (sortPairs l).Perm l
  | [] => List.Perm.refl _
  | p :: rest =>
      (insertPair_perm p (sortPairs rest)).trans ((sortPairs_perm rest).cons p)

/-- The field lists `sort_keys=True` produces: keys in ascending order. -/
def SortedKeys (l : List (String × JValue)) : Prop :=
  l.Pairwise (fun p q => strLe p.1 q.1 = true)

theorem insertPair_sortedKeys (p : String × JValue) :
    ∀ l : List (String × JValue), SortedKeys l → SortedKeys (insertPair p l)
  | [], _ => by simp [insertPair, SortedKeys]
  | q :: rest, h => by
      rcases (List.pairwise_cons.mp h) with ⟨hq, hrest⟩
      by_cases hle : strLe p.1 q.1
      · simp only [insertPair, hle, if_true]
        exact List.Pairwise.cons
          (by
            intro r hr
            rcases List.mem_cons.mp hr with hr | hr
            · rw [hr]
              exact hle
            · exact strLe_trans hle (hq r hr))
          h
      · have hqp : strLe q.1 p.1 = true := by
          rcases strLe_total p.1 q.1 with ht | ht
          · exact absurd ht hle
          · exact ht
        simp only [insertPair, hle, if_false]
        exact List.Pairwise.cons
          (by
            intro r hr
            rcases List.mem_cons.mp ((insertPair_perm p rest).mem_iff.mp hr) with hr | hr
            · rw [hr]
              exact hqp
            · exact hq r hr)
          (insertPair_sortedKeys p rest hrest)

theorem sortPairs_sortedKeys : ∀ l : List (String × JValue), SortedKeys (sortPairs l)
  | [] => List.Pairwise.nil
  | p :: rest => insertPair_sortedKeys p (sortPairs rest) (sortPairs_sortedKeys rest)

theorem sortPairs_eq_of_sorted : ∀ l : List (String × JValue),
    SortedKeys l → sortPairs l = l
  | [], _ => rfl
  | p :: rest, h => by
      rcases (List.pairwise_cons.mp h) with ⟨hp, hrest⟩
      rw [sortPairs, sortPairs_eq_of_sorted rest hrest]
      cases rest with
      | nil => rfl
      | cons q t =>
          simp only [insertPair, hp q (List.mem_cons_self q t), if_true]

theorem sortPairs_idem (l : List (String × JValue)) :
    sortPairs (sortPairs l) = sortPairs l :=
  sortPairs_eq_of_sorted (sortPairs l) (sortPairs_sortedKeys l)

/-! ## Lemmas: `sortKeys` commutes with itself (canonical form) -/

theorem sortKeysFields_insertPair (p : String × JValue) :
    ∀ l : List (String × JValue),
      sortKeysFields (insertPair p l)
        = insertPair (p.1, sortKeys p.2) (sortKeysFields l)
  | [] => rfl
  | q :: rest => by
      by_cases hle : strLe p.1 q.1
      · simp [insertPair, sortKeysFields, hle]
      · simp [insertPair, sortKeysFields, hle, sortKeysFields_insertPair p rest]

theorem sortKeysFields_sortPairs : ∀ l : List (String × JValue),
    sortKeysFields (sortPairs l) = sortPairs (sortKeysFields l)
  | [] => rfl
  | p :: rest => by
      rw [sortPairs, sortKeysFields_insertPair p (sortPairs rest),
        sortKeysFields_sortPairs rest]
      rfl

mutual

theorem sortKeys_idem : ∀ v : JValue, sortKeys (sortKeys v) = sortKeys v
  | .null => rfl
  | .bool _ => rfl
  | .num _ => rfl
  | .str _ => rfl
  | .arr xs => by
      rw [sortKeys, sortKeys, sortKeysList_idem xs]
  | .obj fs => by
      rw [sortKeys, sortKeys, sortKeysFields_sortPairs (sortKeysFields fs),
        sortPairs_idem, sortKeysFields_idem fs]

theorem sortKeysList_idem : ∀ xs : List JValue,
    sortKeysList (sortKeysList xs) = sortKeysList xs
  | [] => rfl
  | x :: rest => by
      rw [sortKeysList, sortKeysList, sortKeys_idem x, sortKeysList_idem rest]

theorem sortKeysFields_idem : ∀ fs : List (String × JValue),
    sortKeysFields (sortKeysFields fs) = sortKeysFields fs
  | [] => rfl
  | p :: rest => by
      rw [sortKeysFields, sortKeysFields, sortKeys_idem p.2, sortKeysFields_idem rest]

end

/-! ## Lemmas: lookups through the serialised form -/

theorem dictGet_insertPair (p : String × JValue) :
    ∀ l : List (String × JValue), ∀ k : String,
      (p.1 :: l.map Prod.fst).Nodup →
      dictGet (insertPair p l) k = dictGet (p :: l) k
  | [], _, _ => rfl
  | q :: rest, k, hnd => by
      have hpq : p.1 ≠ q.1 := by
        simp only [List.map_cons, List.nodup_cons, List.mem_cons] at hnd
        exact fun h => hnd.1 (Or.inl h)
      have hnd' : (p.1 :: rest.map Prod.fst).Nodup := by
        simp only [List.map_cons, List.nodup_cons, List.mem_cons] at hnd
        exact List.nodup_cons.mpr ⟨fun h => hnd.1 (Or.inr h), hnd.2.2⟩
      by_cases hle : strLe p.1 q.1
      · simp [insertPair, hle]
      · simp only [insertPair, hle, if_false]
        by_cases hqk : q.1 = k
        · subst hqk
          simp [dictGet, hpq, Ne.symm hpq]
        · simp only [dictGet, hqk, if_false]
          rw [dictGet_insertPair p rest k hnd']
          by_cases hpk : p.1 = k
          · simp [dictGet, hpk]
          · simp [dictGet, hpk, hqk]

theorem dictGet_sortPairs : ∀ l : List (String × JValue), ∀ k : String,
    (l.map Prod.fst).Nodup → dictGet (sortPairs l) k = dictGet l k
  | [], _, _ => rfl
  | p :: rest, k, hnd => by
      have hmem : ∀ x, x ∈ (sortPairs rest).map Prod.fst ↔ x ∈ rest.map Prod.fst :=
        fun x => ((sortPairs_perm rest).map Prod.fst).mem_iff
      simp only [List.map_cons, List.nodup_cons] at hnd
      have hnd' : (p.1 :: (sortPairs rest).map Prod.fst).Nodup :=
        List.nodup_cons.mpr ⟨fun h => hnd.1 ((hmem p.1).mp h),
          (((sortPairs_perm rest).map Prod.fst).nodup_iff).mpr hnd.2⟩
      rw [sortPairs, dictGet_insertPair p (sortPairs rest) k hnd']
      by_cases hpk : p.1 = k
      · simp [dictGet, hpk]
      · simp only [dictGet, hpk, if_false]
        exact dictGet_sortPairs rest k hnd.2

theorem dictGet_sortKeysFields : ∀ fs : List (String × JValue), ∀ k : String,
    dictGet (sortKeysFields fs) k = (dictGet fs k).map sortKeys
  | [], _ => rfl
  | p :: rest, k => by
      by_cases hpk : p.1 = k
      · simp [sortKeysFields, dictGet, hpk]
      · simp [sortKeysFields, dictGet, hpk, dictGet_sortKeysFields rest k]

theorem map_fst_sortKeysFields : ∀ fs : List (String × JValue),
    (sortKeysFields fs).map Prod.fst = fs.map Prod.fst
  | [] => rfl
  | p :: rest => by
      simp [sortKeysFields, map_fst_sortKeysFields rest]

theorem sortKeysList_map_obj : ∀ rs : List Issue,
    sortKeysList (rs.map JValue.obj)
      = rs.map (fun r => JValue.obj (sortPairs (sortKeysFields r)))
  | [] => rfl
  | r :: rest => by
      simp only [List.map_cons, sortKeysList, sortKeys, sortKeysList_map_obj rest]

/-- C6: saving a sequence of records with `save_issues` and reloading it
with `load_issues` succeeds and yields a sequence of the same length in
the same order in which every record holds exactly the original fields
with the same JSON values (field lookups agree up to the canonical
sorted-keys form that serialisation fixes — on the duplicate-free keys of
Python dicts this is JSON value equality). -/
theorem save_load_roundtrip (issues : List Issue)
    (hnd : ∀ r ∈ issues, (r.map Prod.fst).Nodup) :
    ∃ out, load_issues (save_issues issues) = Except.ok out ∧
      out.length = issues.length ∧
      ∀ (n : Nat) (k : String),
        (out[n]?.map (fun r => (dictGet r k).map sortKeys))
          = (issues[n]?.map (fun r => (dictGet r k).map sortKeys)) := by
  refine ⟨issues.map (fun r => sortPairs (sortKeysFields r)), ?_, List.length_map _ _, ?_⟩
  · unfold save_issues load_issues
    rw [sortKeys, sortKeysList_map_obj issues]
    have : issues.map (fun r => JValue.obj (sortPairs (sortKeysFields r)))
        = (issues.map (fun r => sortPairs (sortKeysFields r))).map JValue.obj := by
      rw [List.map_map]
      rfl
    rw [this]
    exact toRecords_map_obj _
  · intro n k
    rw [List.getElem?_map]
    cases hn : issues[n]? with
    | none => rfl
    | some r =>
        have hr : r ∈ issues := List.getElem?_mem hn
        have hndr := hnd r hr
        simp only [Option.map_some']
        rw [dictGet_sortPairs (sortKeysFields r) k
              (by rw [map_fst_sortKeysFields]; exact hndr),
          dictGet_sortKeysFields r k, Option.map_map]
        cases dictGet r k with
        | none => rfl
        | some v => simp [sortKeys_idem v]

/-- Witness for C6: the example document from the module docstring
round-trips. -/
theorem save_load_roundtrip_witness :
    ∃ out, load_issues (save_issues [exOpen, exImplemented]) = Except.ok out ∧
      out.length = [exOpen, exImplemented].length ∧
      ∀ (n : Nat) (k : String),
        (out[n]?.map (fun r => (dictGet r k).map sortKeys))
          = ([exOpen, exImplemented][n]?.map (fun r => (dictGet r k).map sortKeys)) :=
  save_load_roundtrip [exOpen, exImplemented] (by decide)

end GitIssues
